import Mathlib

set_option linter.unnecessarySeqFocus false

/-!
Shallow embedding of `src/Pencit.py` (ImageProcessingApp), the transform
pipeline of a small image-processing desktop application.

An image buffer (a numpy uint8 array in the source) is modelled as a grid of
rows, each row a list of pixels, each pixel a list of channel samples
(naturals bounded by 255 for well-formed buffers).  The application state
(`original_image`, `processed_image`, `threshold_var`, `division_var`) is an
explicit record, and each button handler of the source becomes one arm of a
`step` function returning the successor state together with the report the
handler surfaces (success status line, warning box, or error box).

External OpenCV primitives used by the handlers are translated at the level
of their documented pixel semantics: `cvtColor RGB2GRAY` as the fixed-point
luma reduction, `threshold THRESH_BINARY` as the strict per-sample
comparison, `bitwise_not` as complement, `calcHist` as per-channel bin
counts, `erode` as a neighborhood minimum with the +infinity (here 255)
constant border OpenCV uses for erosion.  `GaussianBlur` and `filter2D`
(sharpen) are threaded through as function parameters: no claim here depends
on their numerics, only on which buffer they are applied to.
-/

namespace Pencit

/-- An image buffer: rows of pixels, each pixel a list of channel samples. -/
structure Img where
  data : List (List (List Nat))
deriving DecidableEq, Repr

/-- Number of rows (`shape[0]`). -/
def Img.height (img : Img) : Nat := img.data.length

/-- Number of pixels in the first row (`shape[1]`). -/
def Img.width (img : Img) : Nat := (img.data.headD []).length

/-- Channel count: the length of the first pixel (`shape[2]`, or 1 for a
2-d array). -/
def Img.channels (img : Img) : Nat := ((img.data.headD []).headD []).length

/-- Sample at row `i`, column `j`, channel `c`; 0 when out of bounds. -/
def Img.sampleAt (img : Img) (i j c : Nat) : Nat :=
  (((img.data.getD i []).getD j []).getD c 0)

/-- Every sample of the buffer satisfies `P`. -/
def Img.AllSamples (P : Nat → Prop) (img : Img) : Prop :=
  ∀ row ∈ img.data, ∀ px ∈ row, ∀ v ∈ px, P v

instance (P : Nat → Prop) [DecidablePred P] (img : Img) :
    Decidable (Img.AllSamples P img) := by
  unfold Img.AllSamples; infer_instance

/-- All rows have the image's width, all pixels its channel count. -/
def Img.Rect (img : Img) : Prop :=
  (∀ row ∈ img.data, row.length = img.width ∧
    ∀ px ∈ row, px.length = img.channels)

/-- Well-formed uint8 buffer: rectangular with samples in [0, 255]. -/
def Img.Wf (img : Img) : Prop :=
  img.Rect ∧ Img.AllSamples (· ≤ 255) img

/-- Apply a function to every sample (pointwise numpy/OpenCV operation). -/
def mapSamples (f : Nat → Nat) (img : Img) : Img :=
  ⟨img.data.map (fun row => row.map (fun px => px.map f))⟩

/-- Fixed-point luma used by OpenCV for RGB→gray:
`(4899 R + 9617 G + 1868 B + 2^13) >> 14`. -/
def luma (r g b : Nat) : Nat := (4899 * r + 9617 * g + 1868 * b + 8192) / 16384

/-- `cv2.cvtColor(img, cv2.COLOR_RGB2GRAY)`: reduce each pixel to one
luma sample. -/
def rgb2gray (img : Img) : Img :=
  ⟨img.data.map (fun row => row.map (fun px =>
    [luma (px.getD 0 0) (px.getD 1 0) (px.getD 2 0)]))⟩

/-- `cv2.cvtColor(img, cv2.COLOR_BGR2RGB)`: swap first and third channel. -/
def bgr2rgb (img : Img) : Img :=
  ⟨img.data.map (fun row => row.map (fun px =>
    [px.getD 2 0, px.getD 1 0, px.getD 0 0]))⟩

/-- `cv2.threshold(src, t, 255, cv2.THRESH_BINARY)`: a sample strictly above
the threshold becomes 255, any other sample becomes 0. -/
def thresholdBinary (t : Nat) (img : Img) : Img :=
  mapSamples (fun v => if t < v then 255 else 0) img

/-- `cv2.bitwise_not`: per-sample complement `255 - v` on uint8 data. -/
def bitwiseNot (img : Img) : Img :=
  mapSamples (fun v => 255 - v) img

/-- One sample of `np.clip(v / f, 0, 255).astype(np.uint8)`: divide in
rational (float) arithmetic, clamp to [0,255], truncate to an integer. -/
def divClip (f : ℚ) (v : Nat) : Nat :=
  (max 0 (min ((v : ℚ) / f) 255)).floor.toNat

/-- The array expression of `apply_division`:
`np.clip(original / value, 0, 255).astype(np.uint8)`. -/
def divideImage (f : ℚ) (img : Img) : Img :=
  mapSamples (divClip f) img

/-- Number of samples of channel `c` equal to `v`
(one bin of `cv2.calcHist`). -/
def histCount (img : Img) (c v : Nat) : Nat :=
  (img.data.map (fun row =>
    (row.map (fun px => if px.getD c 0 = v then 1 else 0)).sum)).sum

/-- `cv2.calcHist([img], [c], None, [256], [0, 256])`: the 256 bin counts of
channel `c`. -/
def calcHist (img : Img) (c : Nat) : List Nat :=
  (List.range 256).map (histCount img c)

/-- The histogram `show_histogram` plots: one table per channel for a
3-channel buffer, a single table otherwise. -/
def histogramOf (img : Img) : List (List Nat) :=
  if img.channels = 3 then [calcHist img 0, calcHist img 1, calcHist img 2]
  else [calcHist img 0]

/-- Sample lookup with the border OpenCV's `erode` uses by default:
out-of-bounds neighbors read as +∞, here 255, the identity of `min` on
uint8 data. -/
def sampleB (img : Img) (i j : Int) : Nat :=
  if 0 ≤ i ∧ i < img.data.length then
    if 0 ≤ j ∧ j < (img.data.getD i.toNat []).length then
      ((img.data.getD i.toNat []).getD j.toNat []).getD 0 0
    else 255
  else 255

/-- Offsets of `cv2.getStructuringElement(cv2.MORPH_RECT, (5, 5))`:
the full 5×5 square around the anchor. -/
def seSquare : List (Int × Int) :=
  (List.range 5).flatMap (fun a => (List.range 5).map
    (fun b => ((a : Int) - 2, (b : Int) - 2)))

/-- Offsets of `cv2.getStructuringElement(cv2.MORPH_CROSS, (5, 5))`:
the center row and center column of the 5×5 window. -/
def seCross : List (Int × Int) :=
  seSquare.filter (fun d => d.1 = 0 ∨ d.2 = 0)

/-- `cv2.erode(img, kernel, iterations=1)` on a single-channel buffer:
each output sample is the minimum over the structuring element. -/
def erode (se : List (Int × Int)) (img : Img) : Img :=
  ⟨(List.range img.data.length).map (fun i =>
    (List.range ((img.data.getD i []).length)).map (fun j =>
      [(se.map (fun d => sampleB img ((i : Int) + d.1) ((j : Int) + d.2))).foldr min 255]))⟩

/-- The transform of `convert_binary`: grayscale first when 3-channel, then
binary threshold. -/
def convertBinaryFn (t : Nat) (img : Img) : Img :=
  thresholdBinary t (if img.channels = 3 then rgb2gray img else img)

/-- The transform of `erosion_square`: binarize at 127 after grayscale when
3-channel (raw buffer otherwise), then erode with the 5×5 square. -/
def erosionSquareFn (img : Img) : Img :=
  if img.channels = 3 then erode seSquare (thresholdBinary 127 (rgb2gray img))
  else erode seSquare img

/-- The transform of `erosion_cross`: same staging with the 5×5 cross. -/
def erosionCrossFn (img : Img) : Img :=
  if img.channels = 3 then erode seCross (thresholdBinary 127 (rgb2gray img))
  else erode seCross img

/-- The mutable window-level state of `ImageProcessingApp`:
`original_image`, `processed_image`, `threshold_var`, `division_var`.
Absent buffers (`None` in Python) are `none`. -/
structure AppState where
  original : Option Img
  processed : Option Img
  threshold : Nat
  division : ℚ
deriving DecidableEq, Repr

/-- State after `setup_variables`: no buffers, threshold 128, division 2.0. -/
def initState : AppState := ⟨none, none, 128, 2⟩

/-- What a handler surfaces to the user: a success status line, a
`messagebox.showwarning`, or a `messagebox.showerror`. -/
inductive Report where
  | ok
  | warn
  | err
deriving DecidableEq, Repr

/-- One user action on the pipeline.  `load` carries the result of
`cv2.imread` (`none` models a file OpenCV cannot decode).  `division`
carries the result of parsing the entry text (`none` models a
`ValueError` from `float(...)`).  `save` carries whether encoding the file
succeeds. -/
inductive Op where
  | load (decoded : Option Img)
  | grayscale
  | binary
  | lognot
  | division (entry : Option ℚ)
  | histogram
  | blur
  | sharpenOp
  | erosionSq
  | erosionCr
  | reset
  | save (encodeOk : Bool)
deriving DecidableEq, Repr

/-- The handlers that `check_image` guards: every transform button of the
catalogue (grayscale, binary, logical NOT, division, histogram, blur,
sharpen, both erosions). -/
def Op.isTransform : Op → Bool
  | .grayscale | .binary | .lognot | .division _ | .histogram
  | .blur | .sharpenOp | .erosionSq | .erosionCr => true
  | _ => false

/-- The transforms that replace the processed buffer (all of the catalogue
except the histogram, which only draws). -/
def Op.writesProcessed : Op → Bool
  | .grayscale | .binary | .lognot | .division _
  | .blur | .sharpenOp | .erosionSq | .erosionCr => true
  | _ => false

/-- One button press, translated handler by handler from the source.
`blurF` and `sharpF` stand for `cv2.GaussianBlur(·, (15,15), 0)` and
`cv2.filter2D(·, -1, kernel)`; no claim depends on their pixel numerics.

`load_image` is translated statement by statement: the assignment
`self.original_image = cv2.imread(file_path)` happens before
`cv2.cvtColor` can raise on a `None` array, so a failed decode leaves
`original = none` while the `except` arm reports the error. -/
def step (blurF sharpF : Img → Img) : Op → AppState → AppState × Report
  | .load decoded, s =>
    match decoded with
    | none => ({ s with original := none }, .err)
    | some img =>
      ({ s with original := some (bgr2rgb img),
                processed := some (bgr2rgb img) }, .ok)
  | .grayscale, s =>
    match s.original with
    | none => (s, .warn)
    | some o => ({ s with processed := some (rgb2gray o) }, .ok)
  | .binary, s =>
    match s.original with
    | none => (s, .warn)
    | some o => ({ s with processed := some (convertBinaryFn s.threshold o) }, .ok)
  | .lognot, s =>
    match s.original with
    | none => (s, .warn)
    | some o => ({ s with processed := some (bitwiseNot o) }, .ok)
  | .division entry, s =>
    match s.original with
    | none => (s, .warn)
    | some o =>
      match entry with
      | none => (s, .err)
      | some q =>
        if 1 ≤ q ∧ q ≤ 10 then
          ({ s with division := q, processed := some (divideImage q o) }, .ok)
        else (s, .err)
  | .histogram, s =>
    match s.original with
    | none => (s, .warn)
    | some _ => (s, .ok)
  | .blur, s =>
    match s.original with
    | none => (s, .warn)
    | some o => ({ s with processed := some (blurF o) }, .ok)
  | .sharpenOp, s =>
    match s.original with
    | none => (s, .warn)
    | some o => ({ s with processed := some (sharpF o) }, .ok)
  | .erosionSq, s =>
    match s.original with
    | none => (s, .warn)
    | some o => ({ s with processed := some (erosionSquareFn o) }, .ok)
  | .erosionCr, s =>
    match s.original with
    | none => (s, .warn)
    | some o => ({ s with processed := some (erosionCrossFn o) }, .ok)
  | .reset, s =>
    match s.original with
    | none => (s, .warn)
    | some o => (⟨some o, some o, 128, 2⟩, .ok)
  | .save encodeOk, s =>
    match s.processed with
    | none => (s, .warn)
    | some _ => (s, if encodeOk then .ok else .err)

/-- Run a sequence of user actions, keeping only the states. -/
def run (blurF sharpF : Img → Img) (ops : List Op) (s : AppState) : AppState :=
  ops.foldl (fun t op => (step blurF sharpF op t).1) s

/-- The frequency tables `show_histogram` draws: computed from the
processed buffer when one is present, from the original otherwise. -/
def histShown (s : AppState) : Option (List (List Nat)) :=
  match s.original with
  | none => none
  | some o => some (histogramOf (s.processed.getD o))

/-- The scale factor of `display_image`: the canvas dimensions are first
clamped below by 300×200, then shrunk by a 20-pixel margin, and the scale
is the smallest of the two fit ratios and 1.0. -/
def displayScale (w h cw ch : Nat) : ℚ :=
  min (min (((max cw 300 - 20 : Nat) : ℚ) / w) (((max ch 200 - 20 : Nat) : ℚ) / h)) 1

/-- The scale factor in the words of the specification:
`min(viewport_width / image_width, viewport_height / image_height, 1.0)`.
Kept separate so the code's factor can be compared against it. -/
def specScale (w h vw vh : Nat) : ℚ :=
  min (min ((vw : ℚ) / w) ((vh : ℚ) / h)) 1

/-- Binary-valued samples: the predicate preserved by thresholding and
erosion. -/
def IsBin (v : Nat) : Prop := v = 0 ∨ v = 255

instance (v : Nat) : Decidable (IsBin v) := by unfold IsBin; infer_instance

/-- Facts `cv2.imread` guarantees for a successful decode with the default
`IMREAD_COLOR` flag: the returned array is 3-channel (even for a grayscale
file on disk) and has at least one pixel. -/
def decodeOk : Op → Bool
  | .load (some img) =>
    img.channels == 3 && !img.data.isEmpty && !(img.data.headD []).isEmpty
  | _ => true

/-- Invariant: whenever an original buffer is present it is 3-channel. -/
def OrigOk (s : AppState) : Prop :=
  ∀ o, s.original = some o → o.channels = 3

/-! ### Helper lemmas -/

/-- A `getD` lookup is either a member of the list or the default. -/
theorem getD_mem_or {α : Type} (l : List α) (n : Nat) (d : α) :
    l.getD n d ∈ l ∨ l.getD n d = d := by
  by_cases h : n < l.length
  · left
    rw [List.getD_eq_getElem l d h]
    exact List.getElem_mem h
  · right
    exact List.getD_eq_default l d (le_of_not_lt h)

/-- `getD` commutes with `map` when the default is transported. -/
theorem getD_map {α β : Type} (f : α → β) (l : List α) (n : Nat) (d : α) :
    (l.map f).getD n (f d) = f (l.getD n d) := by
  by_cases h : n < l.length
  · rw [List.getD_eq_getElem _ _ (by simpa using h), List.getD_eq_getElem l d h,
      List.getElem_map]
  · rw [List.getD_eq_default _ _ (by simpa using le_of_not_lt h),
      List.getD_eq_default l d (le_of_not_lt h)]

theorem mapSamples_mapSamples (f g : Nat → Nat) (img : Img) :
    mapSamples f (mapSamples g img) = mapSamples (fun v => f (g v)) img := by
  cases img with
  | mk data => simp [mapSamples, List.map_map, Function.comp_def]

/-- A pointwise map that fixes every sample of `img` fixes `img`. -/
theorem mapSamples_eq_self {f : Nat → Nat} {img : Img}
    (h : ∀ row ∈ img.data, ∀ px ∈ row, ∀ v ∈ px, f v = v) :
    mapSamples f img = img := by
  cases img with
  | mk data =>
    simp only [mapSamples, Img.mk.injEq]
    conv_rhs => rw [← List.map_id data]
    refine List.map_congr_left (fun row hrow => ?_)
    simp only [id]
    conv_rhs => rw [← List.map_id row]
    refine List.map_congr_left (fun px hpx => ?_)
    simp only [id]
    conv_rhs => rw [← List.map_id px]
    exact List.map_congr_left (fun v hv => h row hrow px hpx v hv)

/-- Every sample of a pointwise-mapped buffer is in the range of the map. -/
theorem allSamples_mapSamples {P : Nat → Prop} (f : Nat → Nat) (img : Img)
    (h : ∀ v, P (f v)) : Img.AllSamples P (mapSamples f img) := by
  intro row hrow px hpx v hv
  simp only [mapSamples, List.mem_map] at hrow
  obtain ⟨row0, -, rfl⟩ := hrow
  simp only [List.mem_map] at hpx
  obtain ⟨px0, -, rfl⟩ := hpx
  simp only [List.mem_map] at hv
  obtain ⟨v0, -, rfl⟩ := hv
  exact h v0

/-- `sampleAt` of a pointwise map, for maps fixing the default 0. -/
theorem sampleAt_mapSamples {f : Nat → Nat} (h0 : f 0 = 0) (img : Img)
    (i j c : Nat) :
    (mapSamples f img).sampleAt i j c = f (img.sampleAt i j c) := by
  cases img with
  | mk data =>
    show ((((data.map _).getD i []).getD j []).getD c 0) = _
    have h1 : ((data.map (fun row => row.map (fun px => px.map f))).getD i []) =
        (data.getD i []).map (fun px => px.map f) := by
      have := getD_map (fun row => row.map (fun px => px.map f)) data i []
      simpa using this
    have h2 : (((data.getD i []).map (fun px => px.map f)).getD j []) =
        ((data.getD i []).getD j []).map f := by
      have := getD_map (fun px => px.map f) (data.getD i []) j []
      simpa using this
    rw [h1, h2]
    have := getD_map f ((data.getD i []).getD j []) c 0
    rw [h0] at this
    exact this

theorem thresholdBinary_bin (t : Nat) (img : Img) :
    Img.AllSamples IsBin (thresholdBinary t img) := by
  refine allSamples_mapSamples _ img (fun v => ?_)
  by_cases h : t < v <;> simp [h, IsBin]

/-- A border-extended lookup into an all-binary buffer is binary (the
border constant 255 included). -/
theorem sampleB_bin {img : Img} (h : Img.AllSamples IsBin img) (i j : Int) :
    IsBin (sampleB img i j) := by
  unfold sampleB
  split
  · split
    · rcases getD_mem_or img.data i.toNat [] with hrow | hrow
      · rcases getD_mem_or (img.data.getD i.toNat []) j.toNat [] with hpx | hpx
        · rcases getD_mem_or ((img.data.getD i.toNat []).getD j.toNat []) 0 0 with hv | hv
          · exact h _ hrow _ hpx _ hv
          · rw [hv]; left; rfl
        · rw [hpx]; left; rfl
      · rw [hrow]; left; rfl
    · right; rfl
  · right; rfl

theorem foldr_min_bin : ∀ l : List Nat, (∀ x ∈ l, IsBin x) →
    IsBin (l.foldr min 255)
  | [], _ => Or.inr rfl
  | x :: xs, h => by
    have hx : IsBin x := h x (by simp)
    have ih : IsBin (xs.foldr min 255) :=
      foldr_min_bin xs (fun y hy => h y (by simp [hy]))
    simp only [List.foldr_cons]
    rcases hx with hx | hx <;> rcases ih with ih | ih <;>
      rw [hx, ih] <;> simp [IsBin]

/-- Erosion of an all-binary buffer is all-binary, and every output pixel
has exactly one channel. -/
theorem erode_bin {img : Img} (h : Img.AllSamples IsBin img)
    (se : List (Int × Int)) :
    Img.AllSamples IsBin (erode se img) ∧
    ∀ row ∈ (erode se img).data, ∀ px ∈ row, px.length = 1 := by
  constructor
  · intro row hrow px hpx v hv
    simp only [erode, List.mem_map, List.mem_range] at hrow
    obtain ⟨i, -, rfl⟩ := hrow
    simp only [List.mem_map, List.mem_range] at hpx
    obtain ⟨j, -, rfl⟩ := hpx
    simp only [List.mem_singleton] at hv
    subst hv
    refine foldr_min_bin _ (fun x hx => ?_)
    simp only [List.mem_map] at hx
    obtain ⟨d, -, rfl⟩ := hx
    exact sampleB_bin h _ _
  · intro row hrow px hpx
    simp only [erode, List.mem_map, List.mem_range] at hrow
    obtain ⟨i, -, rfl⟩ := hrow
    simp only [List.mem_map, List.mem_range] at hpx
    obtain ⟨j, -, rfl⟩ := hpx
    rfl

/-! ### Step-level lemmas -/

theorem run_nil (b f : Img → Img) (s : AppState) : run b f [] s = s := rfl

theorem run_cons (b f : Img → Img) (op : Op) (rest : List Op) (s : AppState) :
    run b f (op :: rest) s = run b f rest ((step b f op s).1) := rfl

/-- Catalogue transforms never touch the original buffer or the stored
threshold. -/
theorem step_transform_fixes (b f : Img → Img) (op : Op)
    (hop : op.isTransform = true) (s : AppState) :
    (step b f op s).1.original = s.original ∧
    (step b f op s).1.threshold = s.threshold := by
  cases op with
  | load d => simp [Op.isTransform] at hop
  | reset => simp [Op.isTransform] at hop
  | save e => simp [Op.isTransform] at hop
  | division entry =>
    rcases ho : s.original with - | o
    · simp [step, ho]
    · rcases entry with - | q
      · simp [step, ho]
      · by_cases hq : 1 ≤ q ∧ q ≤ 10 <;> simp [step, ho, hq]
  | grayscale => rcases ho : s.original with - | o <;> simp [step, ho]
  | binary => rcases ho : s.original with - | o <;> simp [step, ho]
  | lognot => rcases ho : s.original with - | o <;> simp [step, ho]
  | histogram => rcases ho : s.original with - | o <;> simp [step, ho]
  | blur => rcases ho : s.original with - | o <;> simp [step, ho]
  | sharpenOp => rcases ho : s.original with - | o <;> simp [step, ho]
  | erosionSq => rcases ho : s.original with - | o <;> simp [step, ho]
  | erosionCr => rcases ho : s.original with - | o <;> simp [step, ho]

/-- A sequence of catalogue transforms never touches the original buffer or
the stored threshold. -/
theorem run_transforms_fix (b f : Img → Img) (ops : List Op)
    (hops : ∀ op ∈ ops, op.isTransform = true) (s : AppState) :
    (run b f ops s).original = s.original ∧
    (run b f ops s).threshold = s.threshold := by
  induction ops generalizing s with
  | nil => exact ⟨rfl, rfl⟩
  | cons op rest ih =>
    have h1 := step_transform_fixes b f op (hops op (by simp)) s
    have h2 := ih (fun o ho => hops o (by simp [ho])) ((step b f op s).1)
    rw [run_cons]
    exact ⟨h2.1.trans h1.1, h2.2.trans h1.2⟩

/-- The report a transform surfaces depends only on the original buffer
(and the operation's own argument), not on the processed buffer or the
parameters. -/
theorem step_report_det (b f : Img → Img) (t : Op) (ht : t.isTransform = true)
    (s s' : AppState) (ho : s.original = s'.original) :
    (step b f t s).2 = (step b f t s').2 := by
  cases t with
  | load d => simp [Op.isTransform] at ht
  | reset => simp [Op.isTransform] at ht
  | save e => simp [Op.isTransform] at ht
  | division entry =>
    rcases h : s.original with - | o
    · have h' : s'.original = none := ho ▸ h
      simp [step, h, h']
    · have h' : s'.original = some o := by rw [← ho, h]
      rcases entry with - | q
      · simp [step, h, h']
      · by_cases hq : 1 ≤ q ∧ q ≤ 10 <;> simp [step, h, h', hq]
  | grayscale =>
    rcases h : s.original with - | o <;>
      · have h' := ho ▸ h
        simp [step, h, h']
  | binary =>
    rcases h : s.original with - | o <;>
      · have h' := ho ▸ h
        simp [step, h, h']
  | lognot =>
    rcases h : s.original with - | o <;>
      · have h' := ho ▸ h
        simp [step, h, h']
  | histogram =>
    rcases h : s.original with - | o <;>
      · have h' := ho ▸ h
        simp [step, h, h']
  | blur =>
    rcases h : s.original with - | o <;>
      · have h' := ho ▸ h
        simp [step, h, h']
  | sharpenOp =>
    rcases h : s.original with - | o <;>
      · have h' := ho ▸ h
        simp [step, h, h']
  | erosionSq =>
    rcases h : s.original with - | o <;>
      · have h' := ho ▸ h
        simp [step, h, h']
  | erosionCr =>
    rcases h : s.original with - | o <;>
      · have h' := ho ▸ h
        simp [step, h, h']

/-- A successful buffer-writing transform computes the new processed buffer
from the original buffer and the threshold alone. -/
theorem step_processed_det (b f : Img → Img) (t : Op)
    (ht : t.writesProcessed = true) (s s' : AppState)
    (ho : s.original = s'.original) (hth : s.threshold = s'.threshold)
    (hok : (step b f t s).2 = Report.ok) :
    (step b f t s).1.processed = (step b f t s').1.processed := by
  cases t with
  | load d => simp [Op.writesProcessed] at ht
  | reset => simp [Op.writesProcessed] at ht
  | save e => simp [Op.writesProcessed] at ht
  | histogram => simp [Op.writesProcessed] at ht
  | division entry =>
    rcases h : s.original with - | o
    · simp [step, h] at hok
    · have h' : s'.original = some o := by rw [← ho, h]
      rcases entry with - | q
      · simp [step, h] at hok
      · by_cases hq : 1 ≤ q ∧ q ≤ 10
        · simp [step, h, h', hq]
        · simp [step, h, hq] at hok
  | grayscale =>
    rcases h : s.original with - | o
    · simp [step, h] at hok
    · have h' : s'.original = some o := by rw [← ho, h]
      simp [step, h, h']
  | binary =>
    rcases h : s.original with - | o
    · simp [step, h] at hok
    · have h' : s'.original = some o := by rw [← ho, h]
      simp [step, h, h', hth]
  | lognot =>
    rcases h : s.original with - | o
    · simp [step, h] at hok
    · have h' : s'.original = some o := by rw [← ho, h]
      simp [step, h, h']
  | blur =>
    rcases h : s.original with - | o
    · simp [step, h] at hok
    · have h' : s'.original = some o := by rw [← ho, h]
      simp [step, h, h']
  | sharpenOp =>
    rcases h : s.original with - | o
    · simp [step, h] at hok
    · have h' : s'.original = some o := by rw [← ho, h]
      simp [step, h, h']
  | erosionSq =>
    rcases h : s.original with - | o
    · simp [step, h] at hok
    · have h' : s'.original = some o := by rw [← ho, h]
      simp [step, h, h']
  | erosionCr =>
    rcases h : s.original with - | o
    · simp [step, h] at hok
    · have h' : s'.original = some o := by rw [← ho, h]
      simp [step, h, h']

/-! ### The 3-channel invariant of the original buffer -/

theorem channels_bgr2rgb (img : Img) (h1 : img.data ≠ [])
    (h2 : img.data.headD [] ≠ []) : (bgr2rgb img).channels = 3 := by
  cases img with
  | mk data =>
    cases data with
    | nil => exact absurd rfl h1
    | cons row rows =>
      cases row with
      | nil => exact absurd rfl h2
      | cons px pxs => rfl

/-- Every single action preserves the 3-channel invariant (load establishes
it, every other action keeps the original buffer or clears it). -/
theorem step_origOk (b f : Img → Img) (op : Op) (s : AppState)
    (hop : decodeOk op = true) (hs : OrigOk s) : OrigOk (step b f op s).1 := by
  cases op with
  | load d =>
    cases d with
    | none => intro o ho; simp [step] at ho
    | some img =>
      intro o ho
      simp only [step] at ho
      have : bgr2rgb img = o := by simpa using ho
      subst this
      simp only [decodeOk, Bool.and_eq_true, beq_iff_eq] at hop
      refine channels_bgr2rgb img (fun hcon => ?_) (fun hcon => ?_)
      · rw [hcon] at hop
        simp at hop
      · rw [hcon] at hop
        simp at hop
  | reset =>
    intro o ho
    rcases h : s.original with - | o0
    · simp [step, h] at ho
    · simp [step, h] at ho
      exact ho ▸ hs o0 h
  | grayscale =>
    intro o ho
    rcases h : s.original with - | o0 <;> simp [step, h] at ho <;>
      exact hs o (by rw [h, ho])
  | binary =>
    intro o ho
    rcases h : s.original with - | o0 <;> simp [step, h] at ho <;>
      exact hs o (by rw [h, ho])
  | lognot =>
    intro o ho
    rcases h : s.original with - | o0 <;> simp [step, h] at ho <;>
      exact hs o (by rw [h, ho])
  | division entry =>
    intro o ho
    rcases h : s.original with - | o0
    · simp [step, h] at ho
    · rcases entry with - | q
      · simp [step, h] at ho
        exact ho ▸ hs o0 h
      · by_cases hq : 1 ≤ q ∧ q ≤ 10 <;> simp [step, h, hq] at ho <;>
          exact ho ▸ hs o0 h
  | histogram =>
    intro o ho
    rcases h : s.original with - | o0 <;> simp [step, h] at ho <;>
      exact hs o (by rw [h, ho])
  | blur =>
    intro o ho
    rcases h : s.original with - | o0 <;> simp [step, h] at ho <;>
      exact hs o (by rw [h, ho])
  | sharpenOp =>
    intro o ho
    rcases h : s.original with - | o0 <;> simp [step, h] at ho <;>
      exact hs o (by rw [h, ho])
  | erosionSq =>
    intro o ho
    rcases h : s.original with - | o0 <;> simp [step, h] at ho <;>
      exact hs o (by rw [h, ho])
  | erosionCr =>
    intro o ho
    rcases h : s.original with - | o0 <;> simp [step, h] at ho <;>
      exact hs o (by rw [h, ho])
  | save e =>
    intro o ho
    rcases h : s.processed with - | p
    · simp only [step, h] at ho
      exact hs o ho
    · simp only [step, h] at ho
      exact hs o ho

theorem run_origOk (b f : Img → Img) (ops : List Op)
    (hops : ∀ op ∈ ops, decodeOk op = true) (s : AppState)
    (hs : OrigOk s) : OrigOk (run b f ops s) := by
  induction ops generalizing s with
  | nil => exact hs
  | cons op rest ih =>
    rw [run_cons]
    exact ih (fun o ho => hops o (by simp [ho])) _
      (step_origOk b f op s (hops op (by simp)) hs)

/-! ### Claim theorems -/

/-- Claim C1, counterexample: a load that fails to decode does NOT leave
the original buffer unchanged.  `load_image` assigns
`self.original_image = cv2.imread(file_path)` — `None` for an undecodable
file — before `cv2.cvtColor` raises, so the handler reports an error with
the original buffer already overwritten by `None`. -/
theorem C1_counterexample :
    ((step id id (Op.load none)
      (AppState.mk (some (Img.mk [[[1]]])) (some (Img.mk [[[1]]])) 128 2)).2
        = Report.err) ∧
    (step id id (Op.load none)
      (AppState.mk (some (Img.mk [[[1]]])) (some (Img.mk [[[1]]])) 128 2)).1.original
        ≠ some (Img.mk [[[1]]]) := by decide

/-- Claim C1, amended: every operation that reports a warning or an error
leaves the processed buffer and both parameters unchanged, and every such
operation other than a load leaves the whole state unchanged; a failed
load additionally clears the original buffer. -/
theorem C1_errors_preserve_state_except_load (b f : Img → Img) (op : Op)
    (s : AppState) (h : (step b f op s).2 ≠ Report.ok) :
    (step b f op s).1.processed = s.processed ∧
    (step b f op s).1.threshold = s.threshold ∧
    (step b f op s).1.division = s.division ∧
    ((∀ d, op ≠ Op.load d) → (step b f op s).1 = s) := by
  cases op with
  | load d =>
    cases d with
    | none => exact ⟨rfl, rfl, rfl, fun hne => absurd rfl (hne none)⟩
    | some img => simp [step] at h
  | grayscale =>
    rcases ho : s.original with - | o
    · simp [step, ho]
    · simp [step, ho] at h
  | binary =>
    rcases ho : s.original with - | o
    · simp [step, ho]
    · simp [step, ho] at h
  | lognot =>
    rcases ho : s.original with - | o
    · simp [step, ho]
    · simp [step, ho] at h
  | division entry =>
    rcases ho : s.original with - | o
    · simp [step, ho]
    · rcases entry with - | q
      · simp [step, ho]
      · by_cases hq : 1 ≤ q ∧ q ≤ 10
        · simp [step, ho, hq] at h
        · simp [step, ho, hq]
  | histogram =>
    rcases ho : s.original with - | o
    · simp [step, ho]
    · simp [step, ho] at h
  | blur =>
    rcases ho : s.original with - | o
    · simp [step, ho]
    · simp [step, ho] at h
  | sharpenOp =>
    rcases ho : s.original with - | o
    · simp [step, ho]
    · simp [step, ho] at h
  | erosionSq =>
    rcases ho : s.original with - | o
    · simp [step, ho]
    · simp [step, ho] at h
  | erosionCr =>
    rcases ho : s.original with - | o
    · simp [step, ho]
    · simp [step, ho] at h
  | reset =>
    rcases ho : s.original with - | o
    · simp [step, ho]
    · simp [step, ho] at h
  | save e =>
    rcases hp : s.processed with - | p
    · simp [step, hp]
    · cases e
      · simp [step, hp]
      · simp [step, hp] at h

/-- Witness for C1: a division request with factor 20 on a loaded image
reports an error and leaves the state exactly as it was. -/
theorem C1_witness :
    (step id id (Op.division (some 20))
      (AppState.mk (some (Img.mk [[[10]]])) none 128 2)).1 =
      AppState.mk (some (Img.mk [[[10]]])) none 128 2 :=
  (C1_errors_preserve_state_except_load id id (Op.division (some 20))
      (AppState.mk (some (Img.mk [[[10]]])) none 128 2)
      (by decide)).2.2.2 (fun d hd => Op.noConfusion hd)

/-- Claim C2, counterexample: the histogram operation does NOT compute its
result from the original buffer — `show_histogram` plots
`self.processed_image` whenever it is present.  With original all-0 and
processed all-255, the table shown differs from the original's table. -/
theorem C2_counterexample :
    histShown (AppState.mk (some (Img.mk [[[0]]])) (some (Img.mk [[[255]]])) 128 2)
      ≠ some (histogramOf (Img.mk [[[0]]])) := by decide

/-- Claim C2, amended: every buffer-writing transform of the catalogue
computes the new processed buffer from the original buffer (and the stored
threshold) alone, so running any sequence of catalogue transforms before a
final successful buffer-writing transform yields the same processed buffer
as the final transform alone; the histogram, however, reads the processed
buffer. -/
theorem C2_last_transform_wins (b f : Img → Img) (ops : List Op)
    (hops : ∀ op ∈ ops, op.isTransform = true) (t : Op)
    (ht : t.writesProcessed = true) (s : AppState)
    (hok : (step b f t s).2 = Report.ok) :
    (step b f t (run b f ops s)).1.processed = (step b f t s).1.processed := by
  have hfix := run_transforms_fix b f ops hops s
  have htr : t.isTransform = true := by
    cases t <;> simp_all [Op.writesProcessed, Op.isTransform]
  have hok' : (step b f t (run b f ops s)).2 = Report.ok := by
    rw [step_report_det b f t htr (run b f ops s) s hfix.1]
    exact hok
  exact step_processed_det b f t ht _ s hfix.1 hfix.2 hok'

/-- Witness for C2: grayscale after a prior logical NOT produces the same
processed buffer as grayscale alone. -/
theorem C2_witness :
    (step id id Op.grayscale
      (run id id [Op.lognot] (AppState.mk (some (Img.mk [[[5,6,7]]])) none 128 2))).1.processed =
    (step id id Op.grayscale
      (AppState.mk (some (Img.mk [[[5,6,7]]])) none 128 2)).1.processed :=
  C2_last_transform_wins id id [Op.lognot] (by decide) Op.grayscale (by decide)
    (AppState.mk (some (Img.mk [[[5,6,7]]])) none 128 2) (by decide)

/-- Claim C3, counterexample: a gray sample exactly equal to the threshold
maps to 0, not 255 — `cv2.threshold(..., cv2.THRESH_BINARY)` uses a strict
comparison, while the claim demands 255 for samples ≥ the threshold.  The
pixel (128,128,128) has luma 128 and, thresholded at 128, comes out 0. -/
theorem C3_counterexample :
    (rgb2gray (Img.mk [[[128, 128, 128]]])).sampleAt 0 0 0 = 128 ∧
    (convertBinaryFn 128 (Img.mk [[[128, 128, 128]]])).sampleAt 0 0 0 = 0 := by
  decide

/-- Claim C3, amended: the binary transform converts a 3-channel input to
grayscale first and maps each sample `s` to 255 exactly when `s` is
STRICTLY greater than the threshold (0 otherwise), so every output sample
is 0 or 255. -/
theorem C3_binary_strict_threshold (t : Nat) (img : Img) :
    (∀ i j c, (convertBinaryFn t img).sampleAt i j c =
      if t < (if img.channels = 3 then rgb2gray img else img).sampleAt i j c
      then 255 else 0) ∧
    Img.AllSamples IsBin (convertBinaryFn t img) := by
  constructor
  · intro i j c
    unfold convertBinaryFn thresholdBinary
    rw [sampleAt_mapSamples (by simp) _ i j c]
  · unfold convertBinaryFn
    exact thresholdBinary_bin t _

/-- Claim C4, counterexample: a successful load does NOT reset the
parameters to their defaults — `load_image` never touches `threshold_var`
or `division_var` (only `reset_image` does). -/
theorem C4_counterexample :
    ((step id id (Op.load (some (Img.mk [[[1, 2, 3]]])))
      (AppState.mk none none 7 5)).2 = Report.ok) ∧
    (step id id (Op.load (some (Img.mk [[[1, 2, 3]]])))
      (AppState.mk none none 7 5)).1.division ≠ 2 ∧
    (step id id (Op.load (some (Img.mk [[[1, 2, 3]]])))
      (AppState.mk none none 7 5)).1.threshold ≠ 128 := by decide

/-- Claim C4, amended: after a successful load the original buffer is the
decoded buffer converted to RGB channel order, the processed buffer equals
the original, and both parameters keep their previous values (defaults are
restored only by reset). -/
theorem C4_load_postcondition (b f : Img → Img) (img : Img) (s : AppState) :
    (step b f (Op.load (some img)) s).2 = Report.ok ∧
    (step b f (Op.load (some img)) s).1.original = some (bgr2rgb img) ∧
    (step b f (Op.load (some img)) s).1.processed =
      (step b f (Op.load (some img)) s).1.original ∧
    (step b f (Op.load (some img)) s).1.threshold = s.threshold ∧
    (step b f (Op.load (some img)) s).1.division = s.division :=
  ⟨rfl, rfl, rfl, rfl, rfl⟩

/-- Claim C5: every catalogue transform invoked with no image loaded is
rejected by the `check_image` guard: it surfaces a warning and leaves the
state untouched. -/
theorem C5_empty_state_guard (b f : Img → Img) (op : Op)
    (hop : op.isTransform = true) (s : AppState) (h : s.original = none) :
    step b f op s = (s, Report.warn) := by
  cases op with
  | load d => simp [Op.isTransform] at hop
  | reset => simp [Op.isTransform] at hop
  | save e => simp [Op.isTransform] at hop
  | division entry => simp [step, h]
  | grayscale => simp [step, h]
  | binary => simp [step, h]
  | lognot => simp [step, h]
  | histogram => simp [step, h]
  | blur => simp [step, h]
  | sharpenOp => simp [step, h]
  | erosionSq => simp [step, h]
  | erosionCr => simp [step, h]

/-- Witness for C5: grayscale pressed in the initial (empty) state warns
and changes nothing. -/
theorem C5_witness :
    Op.grayscale.isTransform = true ∧ initState.original = none ∧
    step id id Op.grayscale initState = (initState, Report.warn) :=
  ⟨by decide, rfl, C5_empty_state_guard id id Op.grayscale (by decide) initState rfl⟩

/-- Claim C6: a division factor outside [1.0, 10.0] is rejected before
anything is touched — the handler reports an error and both the processed
buffer and the stored division parameter keep their values — while a
factor inside the range is applied: the parameter is stored and each
output sample is the input sample divided by the factor, clamped to
[0, 255] and truncated to an integer. -/
theorem C6_division_validation (b f : Img → Img) (s : AppState) (o : Img)
    (q : ℚ) (ho : s.original = some o) :
    (¬ (1 ≤ q ∧ q ≤ 10) → step b f (Op.division (some q)) s = (s, Report.err)) ∧
    (1 ≤ q → q ≤ 10 →
      (step b f (Op.division (some q)) s).2 = Report.ok ∧
      (step b f (Op.division (some q)) s).1.division = q ∧
      (step b f (Op.division (some q)) s).1.processed = some (divideImage q o) ∧
      ∀ i j c, (divideImage q o).sampleAt i j c = divClip q (o.sampleAt i j c)) := by
  constructor
  · intro hq
    simp [step, ho, hq]
  · intro h1 h10
    have hq : 1 ≤ q ∧ q ≤ 10 := ⟨h1, h10⟩
    refine ⟨by simp [step, ho, hq], by simp [step, ho, hq],
      by simp [step, ho, hq], fun i j c => ?_⟩
    unfold divideImage
    rw [sampleAt_mapSamples ?_ o i j c]
    simp [divClip]
    decide

/-- Witness for C6: factor 20 on a loaded all-200 image errors and changes
nothing; factor 2 is applied. -/
theorem C6_witness :
    step id id (Op.division (some 20))
      (AppState.mk (some (Img.mk [[[200]]])) none 128 2) =
      (AppState.mk (some (Img.mk [[[200]]])) none 128 2, Report.err) ∧
    (step id id (Op.division (some 2))
      (AppState.mk (some (Img.mk [[[200]]])) none 128 2)).1.processed =
      some (divideImage 2 (Img.mk [[[200]]])) :=
  ⟨(C6_division_validation id id _ (Img.mk [[[200]]]) 20 rfl).1 (by decide),
   ((C6_division_validation id id _ (Img.mk [[[200]]]) 2 rfl).2
      (by decide) (by decide)).2.2.1⟩

/-- Claim C7: the per-sample complement of `cv2.bitwise_not` is an
involution on buffers with uint8-ranged samples: applying it twice gives
back every original sample. -/
theorem C7_lognot_involution (img : Img)
    (h : Img.AllSamples (· ≤ 255) img) :
    bitwiseNot (bitwiseNot img) = img := by
  unfold bitwiseNot
  rw [mapSamples_mapSamples]
  exact mapSamples_eq_self (fun row hrow px hpx v hv => by
    have := h row hrow px hpx v hv
    omega)

/-- Witness for C7 on a concrete two-pixel buffer. -/
theorem C7_witness :
    bitwiseNot (bitwiseNot (Img.mk [[[0, 128, 255]], [[7, 9, 200]]])) =
      Img.mk [[[0, 128, 255]], [[7, 9, 200]]] :=
  C7_lognot_involution _ (by decide)

/-- Claim C8, counterexample: on a 1-channel buffer `erosion_square` skips
the binarization step entirely (the `else` branch uses the raw original),
so the output need not consist of 0s and 255s: a single pixel of value 100
erodes to 100. -/
theorem C8_counterexample :
    (Img.mk [[[100]]]).channels = 1 ∧
    ¬ IsBin ((erosionSquareFn (Img.mk [[[100]]])).sampleAt 0 0 0) := by decide

/-- Claim C8, amended: on a 3-channel buffer the square erosion converts
to grayscale, binarizes at the fixed threshold 127, then erodes with the
5×5 full square, and its output is a 1-channel buffer containing only 0
and 255; a 1-channel input, however, is eroded raw, without binarization. -/
theorem C8_erosion_square_binary_output (img : Img) (h3 : img.channels = 3) :
    erosionSquareFn img = erode seSquare (thresholdBinary 127 (rgb2gray img)) ∧
    Img.AllSamples IsBin (erosionSquareFn img) ∧
    ∀ row ∈ (erosionSquareFn img).data, ∀ px ∈ row, px.length = 1 := by
  have he : erosionSquareFn img =
      erode seSquare (thresholdBinary 127 (rgb2gray img)) := by
    simp [erosionSquareFn, h3]
  have hb := erode_bin (thresholdBinary_bin 127 (rgb2gray img)) seSquare
  exact ⟨he, he ▸ hb.1, he ▸ hb.2⟩

/-- Witness for C8 on a concrete 3-channel two-pixel buffer. -/
theorem C8_witness :
    Img.AllSamples IsBin (erosionSquareFn (Img.mk [[[200, 0, 50], [10, 10, 10]]])) :=
  (C8_erosion_square_binary_output (Img.mk [[[200, 0, 50], [10, 10, 10]]]) rfl).2.1

/-- Claim C9, counterexample: the render scale is NOT
`min(vw/w, vh/h, 1.0)`: `display_image` subtracts a 20-pixel margin from
the(clamped) canvas dimensions first.  A 300×200 image in a 300×200
viewport would keep scale 1.0 under the claim but is scaled by 0.9. -/
theorem C9_counterexample :
    displayScale 300 200 300 200 ≠ specScale 300 200 300 200 ∧
    specScale 300 200 300 200 = 1 ∧
    displayScale 300 200 300 200 = 9 / 10 := by
  norm_num [displayScale, specScale, min_def]

/-- Claim C9, amended: the scale factor is
`min((max(vw,300) - 20) / w, (max(vh,200) - 20) / h, 1.0)` — the claimed
formula applied to margin-reduced clamped viewport dimensions — and it
never exceeds 1, so the image is never upscaled. -/
theorem C9_display_scale (w h vw vh : Nat) :
    displayScale w h vw vh ≤ 1 ∧
    displayScale w h vw vh = specScale w h (max vw 300 - 20) (max vh 200 - 20) :=
  ⟨min_le_right _ _, rfl⟩

/-- Claim C10: under the `IMREAD_COLOR` decoding guarantee, every
reachable state has a 3-channel original buffer (or none), so the binary
and erosion transforms always take their grayscale-conversion branch and
the 1-channel branches are unreachable from the public interface. -/
theorem C10_original_three_channel_invariant (b f : Img → Img)
    (ops : List Op) (hops : ∀ op ∈ ops, decodeOk op = true) (s : AppState)
    (hs : OrigOk s) :
    OrigOk (run b f ops s) ∧
    ∀ o, (run b f ops s).original = some o →
      o.channels = 3 ∧
      erosionSquareFn o = erode seSquare (thresholdBinary 127 (rgb2gray o)) ∧
      erosionCrossFn o = erode seCross (thresholdBinary 127 (rgb2gray o)) ∧
      ∀ t, convertBinaryFn t o = thresholdBinary t (rgb2gray o) := by
  have hinv := run_origOk b f ops hops s hs
  refine ⟨hinv, fun o ho => ?_⟩
  have h3 := hinv o ho
  exact ⟨h3, by simp [erosionSquareFn, h3], by simp [erosionCrossFn, h3],
    fun t => by simp [convertBinaryFn, h3]⟩

/-- Witness for C10: after loading a concrete 3-channel decode, the square
erosion of the reachable original takes the binarizing branch. -/
theorem C10_witness :
    erosionSquareFn (bgr2rgb (Img.mk [[[9, 8, 7]]])) =
      erode seSquare (thresholdBinary 127 (rgb2gray (bgr2rgb (Img.mk [[[9, 8, 7]]])))) :=
  ((C10_original_three_channel_invariant id id
      [Op.load (some (Img.mk [[[9, 8, 7]]]))] (by decide) initState
      (fun o ho => Option.noConfusion ho)).2
    (bgr2rgb (Img.mk [[[9, 8, 7]]])) (by decide)).2.1

end Pencit
